import Mathlib

/-!
Verification development for the OpenMemory backend service and its Tencent
vector-store connector.  Each section shallowly embeds one part of the source
tree (`openmemory/api/app/...`, `mem0/vector_stores/tencent_vectordb.py`) as
executable Lean definitions, and the theorems at the end settle the stated
claims about those definitions.
-/

set_option maxHeartbeats 1000000

namespace Mem0

/-! ## Relational data model (app/models.py)

`MemoryState` is the state enum of the `Memory` table.  `MemRow`,
`HistRow` and `UserRow` carry the columns of `memories`,
`memory_status_history` and `users` that the memories router reads or
writes; identifiers are modelled as `Nat` (the database stores 36-char
UUID strings, but only equality of identifiers matters to the router).
`cat_ids` models the `memory_categories` association for a row. -/

inductive MemoryState where
  | active
  | paused
  | archived
  | deleted
deriving DecidableEq, Repr, Inhabited

structure MemRow where
  id : Nat
  user_id : Nat
  app_id : Nat
  content : String
  metadata : List (String × String)
  state : MemoryState
  archived_at : Option Nat
  deleted_at : Option Nat
  cat_ids : List Nat
deriving DecidableEq, Repr

structure HistRow where
  memory_id : Nat
  changed_by : Nat
  old_state : MemoryState
  new_state : MemoryState
deriving DecidableEq, Repr

structure UserRow where
  id : Nat
  user_id : String
deriving DecidableEq, Repr

structure AppRow where
  id : Nat
deriving DecidableEq, Repr

/-- The relational store as seen by the memories router: the `users`,
`memories` and `memory_status_history` tables. -/
structure Db where
  users : List UserRow
  memories : List MemRow
  history : List HistRow
deriving DecidableEq, Repr

/-- `db.query(Memory).filter(Memory.id == memory_id).first()`. -/
def findMem (db : Db) (mid : Nat) : Option MemRow :=
  db.memories.find? (fun m => m.id == mid)

inductive HErr where
  | http (status : Nat) (detail : String)
deriving DecidableEq, Repr

/-- The state/timestamp mutation performed by `update_memory_state`:
set the new state, and stamp `archived_at` / `deleted_at` exactly when
entering the corresponding state. -/
def mutState (m : MemRow) (new_state : MemoryState) (now : Nat) : MemRow :=
  { m with
    state := new_state
    archived_at := if new_state = MemoryState.archived then some now else m.archived_at
    deleted_at := if new_state = MemoryState.deleted then some now else m.deleted_at }

/-- `update_memory_state` from app/routers/memories.py: fetch the row (404 if
absent), mutate its state, append one `MemoryStatusHistory` row recording the
old and new state, and commit. -/
def update_memory_state (db : Db) (memory_id : Nat) (new_state : MemoryState)
    (user_id : Nat) (now : Nat) : Except HErr Db :=
  match findMem db memory_id with
  | none => Except.error (HErr.http 404 "Memory not found")
  | some memory =>
      Except.ok { db with
        memories := db.memories.map
          (fun r => if r.id == memory_id then mutState r new_state now else r)
        history := db.history ++ [⟨memory_id, user_id, memory.state, new_state⟩] }

/-! ## Event handlers of POST /memories/ (app/routers/memories.py)

The handlers mutate the request's session; here each handler takes the
session database and returns the `(memory, action)` pair together with
the session database carrying its pending mutations. -/

/-- `_create_or_update_memory`: if a row exists, set its state to `active` and
replace its content; otherwise create a new row.  The Python source computes
the returned old state as `existing_memory.state if old_state is None else
old_state` only after the assignment `existing_memory.state =
MemoryState.active`, so with `old_state=None` the returned value is always
`active`. -/
def _create_or_update_memory (memory_id : Nat) (existing : Option MemRow)
    (user : UserRow) (app_obj : AppRow) (request_metadata : List (String × String))
    (result_memory : String) (db : Db) (old_state : Option MemoryState) :
    MemRow × MemoryState × Db :=
  match existing with
  | some existing_memory =>
      let m := { existing_memory with state := MemoryState.active, content := result_memory }
      (m, old_state.getD m.state,
        { db with memories := db.memories.map (fun r => if r.id == memory_id then m else r) })
  | none =>
      let m : MemRow :=
        { id := memory_id, user_id := user.id, app_id := app_obj.id,
          content := result_memory, metadata := request_metadata,
          state := MemoryState.active, archived_at := none, deleted_at := none,
          cat_ids := [] }
      (m, MemoryState.active, { db with memories := db.memories ++ [m] })

/-- `_handle_add_event`: create or update (passing no explicit old state) and
record a status-history row ending in `active`. -/
def _handle_add_event (result_memory : String) (memory_id : Nat) (existing : Option MemRow)
    (user : UserRow) (app_obj : AppRow) (request_metadata : List (String × String))
    (db : Db) : (Option MemRow × String) × Db :=
  match _create_or_update_memory memory_id existing user app_obj request_metadata
      result_memory db none with
  | (memory, old_state, db1) =>
      ((some memory, "created"),
        { db1 with history := db1.history ++
            [⟨memory_id, user.id, old_state, MemoryState.active⟩] })

/-- `_handle_update_event`: like ADD but passes `MemoryState.active` as the
explicit old state and reports `"updated"` when a row existed. -/
def _handle_update_event (result_memory : String) (memory_id : Nat) (existing : Option MemRow)
    (user : UserRow) (app_obj : AppRow) (request_metadata : List (String × String))
    (db : Db) : (Option MemRow × String) × Db :=
  match _create_or_update_memory memory_id existing user app_obj request_metadata
      result_memory db (some MemoryState.active) with
  | (memory, old_state, db1) =>
      ((some memory, if existing.isSome then "updated" else "created"),
        { db1 with history := db1.history ++
            [⟨memory_id, user.id, old_state, MemoryState.active⟩] })

/-- `_handle_delete_event`: no-op (`"skipped"`) if the row does not exist;
otherwise mark deleted, stamp `deleted_at`, and record a history row whose old
state is hard-coded `active`. -/
def _handle_delete_event (memory_id : Nat) (existing : Option MemRow)
    (user : UserRow) (db : Db) (now : Nat) : (Option MemRow × String) × Db :=
  match existing with
  | none => ((none, "skipped"), db)
  | some existing_memory =>
      let m := { existing_memory with state := MemoryState.deleted, deleted_at := some now }
      ((some m, "deleted"),
        { db with
          memories := db.memories.map (fun r => if r.id == memory_id then m else r)
          history := db.history ++
            [⟨memory_id, user.id, MemoryState.active, MemoryState.deleted⟩] })

/-- `_handle_none_event`. -/
def _handle_none_event (db : Db) : (Option MemRow × String) × Db :=
  ((none, "skipped"), db)

/-! ## Event reconciliation loop of POST /memories/ -/

structure EventResult where
  event : String
  id : Nat
  memory : String
deriving DecidableEq, Repr

inductive CreateResponse where
  | memoryObj (m : MemRow)
  | errorPayload (msg : String)
  | nullBody
deriving DecidableEq, Repr

/-- The loop state of `create_memory`: the session database plus the
`created`/`updated`/`deleted`/`skipped` accumulation lists. -/
structure LoopState where
  db : Db
  created : List (Option MemRow)
  updated : List (Option MemRow)
  deleted : List (Option MemRow)
  skipped : List Nat
deriving Repr

/-- The `action_memory_map` dispatch after a handler returns: `created`,
`updated` and `deleted` memories are accumulated; anything else is skipped. -/
def routeAction (s : LoopState) (db1 : Db) (rid : Nat) (memory : Option MemRow)
    (action : String) : LoopState :=
  if action == "created" then { s with db := db1, created := s.created ++ [memory] }
  else if action == "updated" then { s with db := db1, updated := s.updated ++ [memory] }
  else if action == "deleted" then { s with db := db1, deleted := s.deleted ++ [memory] }
  else { s with db := db1, skipped := s.skipped ++ [rid] }

/-- One iteration of the `for result in mem0_response['results']` loop:
look up the existing row, dispatch on the event type through
`EVENT_HANDLERS`, and route the handler's action; an unknown event type is
counted as skipped. -/
def processEvent (user : UserRow) (app_obj : AppRow)
    (request_metadata : List (String × String)) (now : Nat)
    (s : LoopState) (result : EventResult) : LoopState :=
  let existing := findMem s.db result.id
  if result.event == "ADD" then
    match _handle_add_event result.memory result.id existing user app_obj
        request_metadata s.db with
    | ((memory, action), db1) => routeAction s db1 result.id memory action
  else if result.event == "UPDATE" then
    match _handle_update_event result.memory result.id existing user app_obj
        request_metadata s.db with
    | ((memory, action), db1) => routeAction s db1 result.id memory action
  else if result.event == "DELETE" then
    match _handle_delete_event result.id existing user s.db now with
    | ((memory, action), db1) => routeAction s db1 result.id memory action
  else if result.event == "NONE" then
    match _handle_none_event s.db with
    | ((memory, action), db1) => routeAction s db1 result.id memory action
  else
    { s with skipped := s.skipped ++ [result.id] }

/-- The results-processing branch of `create_memory`: fold the event loop over
the engine's `results`, then commit once if any change was made and return the
first memory with priority created > updated > deleted; with no change the
session is discarded (nothing is committed) and the endpoint returns `None`
(HTTP 200 with a null JSON body).  The returned `Db` is the committed
database state. -/
def create_memory_results (user : UserRow) (app_obj : AppRow)
    (request_metadata : List (String × String)) (now : Nat)
    (results : List EventResult) (db : Db) : CreateResponse × Db :=
  let s := results.foldl (processEvent user app_obj request_metadata now)
    ⟨db, [], [], [], []⟩
  let total_changes := s.created.length + s.updated.length + s.deleted.length
  if total_changes > 0 then
    (match s.created ++ s.updated ++ s.deleted with
     | some m :: _ => CreateResponse.memoryObj m
     | none :: _ => CreateResponse.nullBody
     | [] => CreateResponse.nullBody,
     s.db)
  else
    (CreateResponse.nullBody, db)

/-! ## Access-control resolution (get_accessible_memory_ids)

`AccessRule` carries the `effect` and `object_id` columns of the
`access_controls` rows already filtered to `subject_type="app"`,
`subject_id=app_id`, `object_type="memory"`.  Object identifiers are the
stored strings; `none` is a SQL NULL.  `objTruthy` mirrors Python's
truthiness test `if rule.object_id:` (NULL and the empty string are
falsy). -/

structure AccessRule where
  effect : String
  object_id : Option String
deriving DecidableEq, Repr

def objTruthy : Option String → Bool
  | none => false
  | some s => !(s == "")

/-- The rule-processing loop of `get_accessible_memory_ids`, carrying the
`allowed_memory_ids` and `denied_memory_ids` accumulators; `none` is the
unrestricted sentinel. -/
def getAccessibleGo (allowed denied : Finset String) :
    List AccessRule → Option (Finset String)
  | [] => some (if allowed.Nonempty then allowed \ denied else allowed)
  | rule :: rest =>
      if rule.effect == "allow" then
        if objTruthy rule.object_id then
          getAccessibleGo (insert (rule.object_id.getD "") allowed) denied rest
        else none
      else if rule.effect == "deny" then
        if objTruthy rule.object_id then
          getAccessibleGo allowed (insert (rule.object_id.getD "") denied) rest
        else some ∅
      else getAccessibleGo allowed denied rest

/-- `get_accessible_memory_ids` from app/routers/memories.py over the app's
rule list: `none` means every memory is accessible. -/
def get_accessible_memory_ids (app_access : List AccessRule) : Option (Finset String) :=
  if app_access.isEmpty then none
  else getAccessibleGo ∅ ∅ app_access

/-- The specifically-allowed (resp. specifically-denied) object ids of a rule
list: the ids of rules with the given effect and a truthy object id. -/
def specificIds (eff : String) (rules : List AccessRule) : Finset String :=
  ((rules.filter (fun r => r.effect == eff && objTruthy r.object_id)).map
    (fun r => r.object_id.getD "")).toFinset

/-- No allow/deny rule of the list has a NULL (or empty) object id. -/
def NoBroadRule (rules : List AccessRule) : Prop :=
  ∀ r ∈ rules, (r.effect = "allow" ∨ r.effect = "deny") → objTruthy r.object_id = true

/-! ## Pause endpoint (POST /memories/actions/pause) -/

structure PauseRequest where
  memory_ids : Option (List Nat)
  category_ids : Option (List Nat)
  app_id : Option Nat
  all_for_app : Bool
  global_pause : Bool
  state : Option MemoryState
  user_id : String
deriving Repr

/-- Python truthiness of an optional list (`if memory_ids:`): `None` and the
empty list are falsy. -/
def listTruthy : Option (List Nat) → Bool
  | none => false
  | some l => !l.isEmpty

/-- `Memory.state != deleted, Memory.state != archived`. -/
def notDelArch (m : MemRow) : Bool :=
  !(m.state == MemoryState.deleted) && !(m.state == MemoryState.archived)

/-- Each pause mode loops `update_memory_state` over the selected memory ids,
committing after each (the loop stops at the first 404). -/
def pauseLoop (db : Db) (ids : List Nat) (st : MemoryState) (uid now : Nat) :
    Except HErr Db :=
  ids.foldlM (fun d mid => update_memory_state d mid st uid now) db

/-- `pause_memories` from app/routers/memories.py.  The five modes are tried
in order; response message strings are abbreviated (the source interpolates
identifiers into some of them).  The mode-5 category query joins
`Memory.categories`; the legacy SQLAlchemy `Query` API deduplicates full
entities, so each matching memory appears once. -/
def pause_memories (request : PauseRequest) (db : Db) (now : Nat) :
    Except HErr (Db × String) :=
  let st := request.state.getD MemoryState.paused
  match db.users.find? (fun u => u.user_id == request.user_id) with
  | none => Except.error (HErr.http 404 "User not found")
  | some user =>
    if request.global_pause then
      (pauseLoop db ((db.memories.filter notDelArch).map (fun m => m.id))
          st user.id now).map
        (fun d => (d, "Successfully paused all memories"))
    else
      match request.app_id with
      | some aid =>
          (pauseLoop db ((db.memories.filter (fun m =>
              m.app_id == aid && m.user_id == user.id && notDelArch m)).map
              (fun m => m.id)) st user.id now).map
            (fun d => (d, "Successfully paused all memories for app"))
      | none =>
        if request.all_for_app && listTruthy request.memory_ids then
          (pauseLoop db ((db.memories.filter (fun m =>
              m.user_id == user.id && !(m.state == MemoryState.deleted) &&
              (request.memory_ids.getD []).contains m.id)).map
              (fun m => m.id)) st user.id now).map
            (fun d => (d, "Successfully paused all memories"))
        else if listTruthy request.memory_ids then
          (pauseLoop db (request.memory_ids.getD []) st user.id now).map
            (fun d => (d, "Successfully paused memories"))
        else if listTruthy request.category_ids then
          (pauseLoop db ((db.memories.filter (fun m =>
              m.cat_ids.any (fun c => (request.category_ids.getD []).contains c) &&
              notDelArch m)).map (fun m => m.id)) st user.id now).map
            (fun d => (d, "Successfully paused memories in categories"))
        else Except.error (HErr.http 400 "Invalid pause request parameters")

/-- Specification-side description of one pause mode's effect: every selected
row transitions to the requested state (with timestamp stamping), and one
history row per selected memory is appended, in table order. -/
def pauseRows (db : Db) (sel : MemRow → Bool) (st : MemoryState) (uid now : Nat) : Db :=
  { db with
    memories := db.memories.map (fun m => if sel m then mutState m st now else m)
    history := db.history ++
      (db.memories.filter sel).map (fun m => ⟨m.id, uid, m.state, st⟩) }

/-- Specification-side description of pausing an explicit id list: rows whose
id is listed transition, and one history row per listed id (recording that
row's prior state) is appended in list order. -/
def pausedByIds (db : Db) (ids : List Nat) (st : MemoryState) (uid now : Nat) : Db :=
  { db with
    memories := db.memories.map
      (fun m => if ids.contains m.id then mutState m st now else m)
    history := db.history ++ ids.filterMap
      (fun i => (findMem db i).map (fun m => (⟨i, uid, m.state, st⟩ : HistRow))) }

/-! ## Tencent connector filter builder (_create_filter)

`FilterValue` is a closed tagged variant of the Python value shapes the
`isinstance` chain of `_create_filter` distinguishes; numbers and other
values carry their Python string rendering (note `bool` is an `int`
instance in Python, so booleans take the numeric branch). -/

inductive FilterValue where
  | str (v : String)
  | num (v : String)
  | range (gte lte : Option String)
  | other (v : String)
deriving DecidableEq, Repr

/-- The loop body of `_create_filter`: the clauses contributed by one filter
entry (a rangeless dict contributes nothing). -/
def filterClauses (key : String) (value : FilterValue) : List String :=
  match value with
  | FilterValue.str v => [key ++ " = \"" ++ v ++ "\""]
  | FilterValue.num v => [key ++ " = " ++ v]
  | FilterValue.range (some g) (some l) =>
      [key ++ " >= " ++ g ++ " AND " ++ key ++ " <= " ++ l]
  | FilterValue.range (some g) none => [key ++ " >= " ++ g]
  | FilterValue.range none (some l) => [key ++ " <= " ++ l]
  | FilterValue.range none none => []
  | FilterValue.other v => [key ++ " = \"" ++ v ++ "\""]

/-- `_create_filter` from mem0/vector_stores/tencent_vectordb.py: build one
clause per filter entry and join them with " AND "; an empty filter map
yields no filter at all (`None`). -/
def _create_filter (filters : List (String × FilterValue)) : Option String :=
  if filters.isEmpty then none
  else some (String.intercalate " AND "
    (filters.flatMap (fun kv => filterClauses kv.1 kv.2)))

/-! ## Categorization service (app/utils/categorization.py)

`Json` models the values `json.loads` can return.  `pyContains` and
`pyIndex` model Python's `key in value` and `value[key]` on such values:
membership on a dict tests keys, on a list tests element equality, on a
string tests substring containment, and on anything else raises
`TypeError`; string indexing with a string key raises `TypeError`. -/

inductive Json where
  | null
  | bool (b : Bool)
  | num (n : Int)
  | str (s : String)
  | arr (xs : List Json)
  | obj (kvs : List (String × Json))
deriving Repr

inductive PyErr where
  | valueError (msg : String)
  | typeError (msg : String)
  | keyError (msg : String)
  | otherError (msg : String)
deriving DecidableEq, Repr

def substrOf (needle hay : String) : Bool :=
  hay.toList.tails.any (fun t => needle.toList.isPrefixOf t)

def pyContains (j : Json) (k : String) : Except PyErr Bool :=
  match j with
  | Json.obj kvs => Except.ok (kvs.any (fun kv => kv.1 == k))
  | Json.arr xs => Except.ok (xs.any (fun x =>
      match x with
      | Json.str s => s == k
      | _ => false))
  | Json.str s => Except.ok (substrOf k s)
  | _ => Except.error (PyErr.typeError "argument is not iterable")

def pyIndex (j : Json) (k : String) : Except PyErr Json :=
  match j with
  | Json.obj kvs =>
      match kvs.find? (fun kv => kv.1 == k) with
      | some kv => Except.ok kv.2
      | none => Except.error (PyErr.keyError k)
  | _ => Except.error (PyErr.typeError "indices must be integers")

/-- ASCII whitespace as recognised by Python's `str.split()` / `str.strip()`. -/
def isPyWs (c : Char) : Bool :=
  decide (c = ' ' ∨ c = '\t' ∨ c = '\n' ∨ c = '\r' ∨ c = '\x0b' ∨ c = '\x0c')

/-- Python's `str.strip()`: drop leading and trailing whitespace. -/
def pyStrip (s : String) : String :=
  String.mk (((s.toList.dropWhile isPyWs).reverse.dropWhile isPyWs).reverse)

/-- Python's `str.lower()` on the ASCII range. -/
def pyLower (s : String) : String :=
  String.mk (s.toList.map Char.toLower)

/-- The normalisation loop of `_parse_categories_response`: keep only string
entries, strip and lower-case them (`cat.strip().lower()`), and drop the ones
that become empty. -/
def normalizeCategories (xs : List Json) : List String :=
  xs.filterMap (fun x =>
    match x with
    | Json.str s =>
        let normalized := pyLower (pyStrip s)
        if normalized == "" then none else some normalized
    | _ => none)

/-- Python truthiness of an optional string (`if not response_content:`). -/
def pyTruthyStr : Option String → Bool
  | none => false
  | some s => !(s == "")

/-- `_parse_categories_response`.  The third-party `json.loads` is passed in
as `decode` (`none` models a `JSONDecodeError`, which the source re-raises as
`ValueError`). -/
def _parse_categories_response (decode : String → Option Json)
    (response_content : Option String) : Except PyErr (List String) :=
  if !(pyTruthyStr response_content) then Except.ok []
  else
    match decode (response_content.getD "") with
    | none => Except.error (PyErr.valueError "Invalid JSON response from LLM")
    | some response_json => do
        let hasKey ← pyContains response_json "categories"
        if !hasKey then pure []
        else do
          let categories ← pyIndex response_json "categories"
          match categories with
          | Json.arr xs => pure (normalizeCategories xs)
          | _ => pure []

structure LlmMessage where
  content : Option String
deriving Repr

structure LlmChoice where
  message : Option LlmMessage
deriving Repr

structure LlmResponse where
  choices : List LlmChoice
deriving Repr

/-- `get_categories_for_memory` (one attempt; the tenacity retry decorator
re-invokes it and finally propagates the same outcome).  The chat-completion
call is passed in as `callLlm`; it is only ever applied when the input text is
non-empty after stripping. -/
def get_categories_for_memory (decode : String → Option Json)
    (callLlm : Unit → Except PyErr LlmResponse) (memory : String) :
    Except PyErr (List String) :=
  if memory == "" || pyStrip memory == "" then Except.ok []
  else
    match callLlm () with
    | Except.error e => Except.error e
    | Except.ok response =>
        match response.choices with
        | [] => Except.ok []
        | choice :: _ =>
            match choice.message with
            | none => Except.ok []
            | some message => _parse_categories_response decode message.content

/-! ## Configuration env dereferencing (app/utils/memory.py)

`ConfigVal` models a JSON-ish configuration document: strings, dicts,
lists and any other leaf.  The mutually inductive encoding keeps the
recursion of `_parse_environment_variables` structural. -/

/-- `value.startswith("env:")`. -/
def hasEnvPrefix (s : String) : Bool :=
  "env:".toList.isPrefixOf s.toList

/-- `value.split(":", 1)[1]` for an `env:`-prefixed string: everything after
the first colon, i.e. after the 4-character prefix. -/
def envVarName (s : String) : String :=
  String.mk (s.toList.drop 4)

mutual
inductive ConfigVal where
  | str (s : String)
  | dict (entries : ConfigEntries)
  | list (items : ConfigItems)
  | other
deriving DecidableEq, Repr
inductive ConfigEntries where
  | nil
  | cons (key : String) (value : ConfigVal) (rest : ConfigEntries)
deriving DecidableEq, Repr
inductive ConfigItems where
  | nil
  | cons (value : ConfigVal) (rest : ConfigItems)
deriving DecidableEq, Repr
end

mutual
/-- `_parse_environment_variables`: only a dict is processed; anything else is
returned unchanged. -/
def _parse_environment_variables (env : String → Option String) :
    ConfigVal → ConfigVal
  | ConfigVal.dict entries => ConfigVal.dict (parseEntries env entries)
  | v => v

/-- The `for key, value in config_dict.items()` loop. -/
def parseEntries (env : String → Option String) : ConfigEntries → ConfigEntries
  | ConfigEntries.nil => ConfigEntries.nil
  | ConfigEntries.cons key value rest =>
      ConfigEntries.cons key (parseEntryValue env value) (parseEntries env rest)

/-- Per-entry handling: an `env:`-prefixed string is replaced when the
environment variable is set to a truthy (non-empty) value, else kept; a
nested dict is recursed into; every other value (lists included) is kept
verbatim.  `hasEnvPrefix` is `value.startswith("env:")` and `envVarName` is
`value.split(":", 1)[1]` (everything after the 4-character prefix). -/
def parseEntryValue (env : String → Option String) : ConfigVal → ConfigVal
  | ConfigVal.str s =>
      if hasEnvPrefix s then
        match env (envVarName s) with
        | some env_value =>
            if env_value == "" then ConfigVal.str s else ConfigVal.str env_value
        | none => ConfigVal.str s
      else ConfigVal.str s
  | ConfigVal.dict entries => ConfigVal.dict (parseEntries env entries)
  | v => v
end

/-- No set environment variable has a value that itself starts with the
`env:` prefix. -/
def EnvStable (env : String → Option String) : Prop :=
  ∀ name value, env name = some value → hasEnvPrefix value = false

/-! ## Neo4j dual-write classifier (app/utils/neo4j_dual_write_patch.py) -/

def WRITE_KEYWORDS : List String :=
  ["CREATE", "MERGE", "SET", "DELETE", "DETACH DELETE", "REMOVE"]

/-- `query.strip().split()`: split into maximal whitespace-free words. -/
def splitWsAux : List Char → List Char → List (List Char)
  | [], acc => if acc.isEmpty then [] else [acc.reverse]
  | c :: cs, acc =>
      if isPyWs c then
        if acc.isEmpty then splitWsAux cs [] else acc.reverse :: splitWsAux cs []
      else splitWsAux cs (c :: acc)

def pySplit (s : List Char) : List (List Char) := splitWsAux s []

/-- `' '.join(words)`. -/
def joinSpace : List (List Char) → List Char
  | [] => []
  | [w] => w
  | w :: ws => w ++ ' ' :: joinSpace ws

/-- `' '.join(query.strip().split())`. -/
def collapseWs (s : List Char) : List Char := joinSpace (pySplit s)

/-- The keyword boundary test: the character right after the keyword is
whitespace, or the query ends there. -/
def nextCharOk : List Char → Bool
  | [] => true
  | c :: _ => c == ' ' || c == '\n' || c == '\t' || c == '\r'

def startsWithKeyword (qu : List Char) (kw : List Char) : Bool :=
  kw.isPrefixOf qu && nextCharOk (qu.drop kw.length)

/-- `should_dual_write`: with dual-write disabled nothing is a write;
otherwise collapse whitespace, upper-case, and test each write keyword at the
start of the query.  (`Char.toUpper` models Python's `str.upper()` on the
ASCII range.) -/
def should_dual_write (enableDualWrite : Bool) (query : String) : Bool :=
  if !enableDualWrite then false
  else
    let query_clean := collapseWs query.toList
    if query_clean.isEmpty then false
    else
      let query_upper := query_clean.map Char.toUpper
      WRITE_KEYWORDS.any (fun kw => startsWithKeyword query_upper kw.toList)

/-- The claim's characterisation of a write query: after collapsing
whitespace, the upper-cased text starts with a write keyword followed by
whitespace or end-of-string. -/
def IsWriteStart (query : String) : Prop :=
  ∃ kw ∈ WRITE_KEYWORDS,
    (collapseWs query.toList).map Char.toUpper = kw.toList ∨
    ∃ c rest, (collapseWs query.toList).map Char.toUpper = kw.toList ++ c :: rest ∧
      isPyWs c = true

/-! ## Categorization trigger (app/models.py)

The trigger bodies are modelled over the outcomes of their fallible
sub-steps; `TriggerTrace` records what escapes to the triggering write
and what was done to the trigger's own session. -/

structure CatSteps where
  get_categories : Except PyErr (List String)
  link_categories : Except PyErr Unit
  commit : Except PyErr Unit
  rollback : Except PyErr Unit

/-- `categorize_memory`: run the flow; on any exception roll back the
trigger's session and log.  Result: (exception escaping the function,
rollback attempted, error logged).  When the rollback itself raises, the
logging line is never reached and the rollback's exception escapes. -/
def categorize_memory_model (s : CatSteps) : Option PyErr × Bool × Bool :=
  match (do
      let _ ← s.get_categories
      let _ ← s.link_categories
      s.commit : Except PyErr Unit) with
  | Except.ok _ => (none, false, false)
  | Except.error _ =>
      match s.rollback with
      | Except.ok _ => (none, true, true)
      | Except.error e2 => (some e2, true, false)

structure InsertTriggerSteps where
  lookup : Except PyErr (Option Unit)
  cat : CatSteps
  outer_rollback : Except PyErr Unit
  close : Except PyErr Unit

structure TriggerTrace where
  raised : Option PyErr
  rolled_back : Bool
  closed : Bool
  logged : Bool
deriving DecidableEq, Repr

/-- `after_memory_insert` (and the identical `after_memory_update`): open an
independent session, re-query the memory, categorize; any exception is caught
and logged, a rollback on the trigger's session is attempted with its own
errors swallowed, and the `finally` block always attempts `close`, swallowing
close errors. -/
def after_memory_insert_model (s : InsertTriggerSteps) : TriggerTrace :=
  let body : Option PyErr × Bool × Bool :=
    match s.lookup with
    | Except.error e => (some e, false, false)
    | Except.ok none => (none, false, false)
    | Except.ok (some _) => categorize_memory_model s.cat
  let afterExcept : Option PyErr × Bool × Bool :=
    match body with
    | (none, rb, lg) => (none, rb, lg)
    | (some _, _, _) =>
        match s.outer_rollback with
        | Except.ok _ => (none, true, true)
        | Except.error _ => (none, true, true)
  match s.close with
  | Except.ok _ =>
      { raised := afterExcept.1, rolled_back := afterExcept.2.1,
        closed := true, logged := afterExcept.2.2 }
  | Except.error _ =>
      { raised := afterExcept.1, rolled_back := afterExcept.2.1,
        closed := true, logged := afterExcept.2.2 }

/-- The categorization flow failed somewhere (LLM failure after retries,
database error while linking, commit failure), or the trigger's own re-query
raised. -/
def triggerFlowFailed (s : InsertTriggerSteps) : Bool :=
  match s.lookup with
  | Except.error _ => true
  | Except.ok none => false
  | Except.ok (some _) =>
      match (do
          let _ ← s.cat.get_categories
          let _ ← s.cat.link_categories
          s.cat.commit : Except PyErr Unit) with
      | Except.ok _ => false
      | Except.error _ => true

/-! ## Theorems -/

/-- The row created by ADD/UPDATE when no row with the event's id exists. -/
def newMemoryRow (memory_id : Nat) (user : UserRow) (app_obj : AppRow)
    (fact : String) (md : List (String × String)) : MemRow :=
  { id := memory_id, user_id := user.id, app_id := app_obj.id, content := fact,
    metadata := md, state := MemoryState.active, archived_at := none,
    deleted_at := none, cat_ids := [] }

def c1row : MemRow := ⟨5, 1, 2, "old fact", [], MemoryState.paused, none, none, []⟩

def c1db : Db := ⟨[⟨1, "alice"⟩], [c1row], []⟩

/-- Claim C1 (counterexample): a pre-existing row in state `paused` hit by an
ADD event gets a status-history row whose `old_state` is `active`, not the
row's state before the event (`paused`). -/
theorem add_event_history_counterexample :
    (findMem c1db 5).map (fun m => m.state) = some MemoryState.paused ∧
    ((_handle_add_event "new fact" 5 (findMem c1db 5) ⟨1, "alice"⟩ ⟨2⟩ []
        c1db).2).history =
      [⟨5, 1, MemoryState.active, MemoryState.active⟩] ∧
    MemoryState.active ≠ MemoryState.paused := by
  refine ⟨by decide, by decide, by decide⟩

/-- Claim C1 (amended): for an ADD or UPDATE event, if a row with the event's
id exists its state is set to `active` and its content replaced with the fact
text, otherwise a new row is created with that id, the resolved user and app,
the fact text, the request's metadata, and state `active`; in both cases the
recorded `MemoryStatusHistory` row has `old_state = active` (always, not the
row's prior state) and `new_state = active`. -/
theorem add_update_event_characterization :
    ∀ (fact : String) (mid : Nat) (db : Db) (user : UserRow) (app_obj : AppRow)
      (md : List (String × String)),
    (findMem db mid = none →
      _handle_add_event fact mid (findMem db mid) user app_obj md db =
        ((some (newMemoryRow mid user app_obj fact md), "created"),
          { db with
            memories := db.memories ++ [newMemoryRow mid user app_obj fact md]
            history := db.history ++
              [⟨mid, user.id, MemoryState.active, MemoryState.active⟩] }) ∧
      _handle_update_event fact mid (findMem db mid) user app_obj md db =
        ((some (newMemoryRow mid user app_obj fact md), "created"),
          { db with
            memories := db.memories ++ [newMemoryRow mid user app_obj fact md]
            history := db.history ++
              [⟨mid, user.id, MemoryState.active, MemoryState.active⟩] })) ∧
    (∀ m0, findMem db mid = some m0 →
      _handle_add_event fact mid (findMem db mid) user app_obj md db =
        ((some { m0 with state := MemoryState.active, content := fact }, "created"),
          { db with
            memories := db.memories.map (fun r =>
              if r.id == mid then { m0 with state := MemoryState.active, content := fact }
              else r)
            history := db.history ++
              [⟨mid, user.id, MemoryState.active, MemoryState.active⟩] }) ∧
      _handle_update_event fact mid (findMem db mid) user app_obj md db =
        ((some { m0 with state := MemoryState.active, content := fact }, "updated"),
          { db with
            memories := db.memories.map (fun r =>
              if r.id == mid then { m0 with state := MemoryState.active, content := fact }
              else r)
            history := db.history ++
              [⟨mid, user.id, MemoryState.active, MemoryState.active⟩] })) := by
  intro fact mid db user app_obj md
  constructor
  · intro h
    rw [h]
    constructor
    · simp [_handle_add_event, _create_or_update_memory, newMemoryRow]
    · simp [_handle_update_event, _create_or_update_memory, newMemoryRow]
  · intro m0 h
    rw [h]
    constructor
    · simp [_handle_add_event, _create_or_update_memory]
    · simp [_handle_update_event, _create_or_update_memory]

/-- Witness for the amended C1 theorem at a concrete database. -/
theorem add_update_event_characterization_witness :
    findMem c1db 5 = some c1row ∧
    _handle_add_event "f" 5 (findMem c1db 5) ⟨1, "alice"⟩ ⟨2⟩ [] c1db =
      ((some { c1row with state := MemoryState.active, content := "f" }, "created"),
        { c1db with
          memories := c1db.memories.map (fun r =>
            if r.id == 5 then { c1row with state := MemoryState.active, content := "f" }
            else r)
          history := c1db.history ++
            [⟨5, 1, MemoryState.active, MemoryState.active⟩] }) :=
  ⟨by decide,
    ((add_update_event_characterization "f" 5 c1db ⟨1, "alice"⟩ ⟨2⟩ []).2 c1row
      (by decide)).1⟩

/-- Claim C3: each filter value shape produces the documented clause (strings
and other values quoted, numbers unquoted, ranges as one or two inequalities),
and the per-key clauses are joined with " AND ". -/
theorem create_filter_characterization :
    (∀ key v, filterClauses key (FilterValue.str v) = [key ++ " = \"" ++ v ++ "\""]) ∧
    (∀ key v, filterClauses key (FilterValue.num v) = [key ++ " = " ++ v]) ∧
    (∀ key g l, filterClauses key (FilterValue.range (some g) (some l)) =
      [key ++ " >= " ++ g ++ " AND " ++ key ++ " <= " ++ l]) ∧
    (∀ key g, filterClauses key (FilterValue.range (some g) none) =
      [key ++ " >= " ++ g]) ∧
    (∀ key l, filterClauses key (FilterValue.range none (some l)) =
      [key ++ " <= " ++ l]) ∧
    (∀ key v, filterClauses key (FilterValue.other v) = [key ++ " = \"" ++ v ++ "\""]) ∧
    (∀ filters : List (String × FilterValue), filters ≠ [] →
      _create_filter filters = some (String.intercalate " AND "
        (filters.flatMap (fun kv => filterClauses kv.1 kv.2)))) ∧
    _create_filter
        [("user_id", FilterValue.str "alice"),
         ("age", FilterValue.range (some "18") (some "30")),
         ("n", FilterValue.num "2")] =
      some "user_id = \"alice\" AND age >= 18 AND age <= 30 AND n = 2" := by
  refine ⟨fun key v => rfl, fun key v => rfl, fun key g l => rfl, fun key g => rfl,
    fun key l => rfl, fun key v => rfl, ?_, by decide⟩
  intro filters h
  have : filters.isEmpty = false := by
    cases filters with
    | nil => exact absurd rfl h
    | cons a l => rfl
  simp [_create_filter, this]

/-- Witness for the C3 joining clause at a concrete nonempty filter map. -/
theorem create_filter_characterization_witness :
    _create_filter [("k", FilterValue.str "v"), ("m", FilterValue.num "3")] =
      some (String.intercalate " AND "
        ([("k", FilterValue.str "v"), ("m", FilterValue.num "3")].flatMap
          (fun kv => filterClauses kv.1 kv.2))) :=
  create_filter_characterization.2.2.2.2.2.2.1
    [("k", FilterValue.str "v"), ("m", FilterValue.num "3")] (by decide)

mutual
theorem parseEntryValue_idem_aux (env : String → Option String) (H : EnvStable env) :
    ∀ v : ConfigVal, parseEntryValue env (parseEntryValue env v) = parseEntryValue env v
  | ConfigVal.str s => by
      by_cases hs : hasEnvPrefix s
      · cases he : env (envVarName s) with
        | none => simp [parseEntryValue, hs, he]
        | some ev =>
            by_cases hev : ev = ""
            · simp [parseEntryValue, hs, he, hev]
            · have hev2 : hasEnvPrefix ev = false := H _ _ he
              simp [parseEntryValue, hs, he, hev, hev2]
      · simp [parseEntryValue, hs]
  | ConfigVal.dict entries => by
      simp [parseEntryValue, parseEntries_idem_aux env H entries]
  | ConfigVal.list items => by simp [parseEntryValue]
  | ConfigVal.other => by simp [parseEntryValue]

theorem parseEntries_idem_aux (env : String → Option String) (H : EnvStable env) :
    ∀ es : ConfigEntries, parseEntries env (parseEntries env es) = parseEntries env es
  | ConfigEntries.nil => by simp [parseEntries]
  | ConfigEntries.cons k v rest => by
      simp [parseEntries, parseEntryValue_idem_aux env H v,
        parseEntries_idem_aux env H rest]
end

def c6env : String → Option String := fun name =>
  if name == "A" then some "env:B" else if name == "B" then some "x" else none

def c6doc : ConfigVal :=
  ConfigVal.dict (ConfigEntries.cons "k" (ConfigVal.str "env:A") ConfigEntries.nil)

/-- Claim C6 (counterexample): with environment `A ↦ "env:B", B ↦ "x"`, one
pass over `{"k": "env:A"}` yields `{"k": "env:B"}` and a second pass yields
`{"k": "x"}`, so the dereferencing pass is not idempotent for every
configuration dict. -/
theorem parse_env_not_idempotent_counterexample :
    _parse_environment_variables c6env (_parse_environment_variables c6env c6doc) ≠
      _parse_environment_variables c6env c6doc ∧
    _parse_environment_variables c6env c6doc =
      ConfigVal.dict (ConfigEntries.cons "k" (ConfigVal.str "env:B") ConfigEntries.nil) ∧
    _parse_environment_variables c6env (_parse_environment_variables c6env c6doc) =
      ConfigVal.dict (ConfigEntries.cons "k" (ConfigVal.str "x") ConfigEntries.nil) :=
  ⟨by decide, by decide, by decide⟩

/-- Claim C6 (amended): the dereferencing pass is total, and it is idempotent
for every configuration document provided no set environment variable's value
itself starts with the `env:` prefix; every leaf string value not starting
with `env:` is left unchanged (unconditionally). -/
theorem parse_env_idempotent_of_env_stable :
    ∀ env : String → Option String, EnvStable env →
      (∀ d : ConfigVal,
        _parse_environment_variables env (_parse_environment_variables env d) =
          _parse_environment_variables env d) ∧
      (∀ s : String, hasEnvPrefix s = false →
        parseEntryValue env (ConfigVal.str s) = ConfigVal.str s) := by
  intro env H
  constructor
  · intro d
    cases d with
    | str s => simp [_parse_environment_variables]
    | dict entries =>
        simp [_parse_environment_variables, parseEntries_idem_aux env H entries]
    | list items => simp [_parse_environment_variables]
    | other => simp [_parse_environment_variables]
  · intro s hs
    simp [parseEntryValue, hs]

def c6envStable : String → Option String := fun name =>
  if name == "A" then some "resolved-value" else none

theorem c6envStable_spec : EnvStable c6envStable := by
  intro name value h
  by_cases hn : name == "A"
  · simp [c6envStable, hn] at h
    subst h
    decide
  · simp [c6envStable, hn] at h

/-- Witness for the amended C6 theorem at a concrete stable environment. -/
theorem parse_env_idempotent_witness :
    _parse_environment_variables c6envStable
        (_parse_environment_variables c6envStable c6doc) =
      _parse_environment_variables c6envStable c6doc :=
  (parse_env_idempotent_of_env_stable c6envStable c6envStable_spec).1 c6doc

def c10env : String → Option String := fun _ => some "RESOLVED"

def c10doc : ConfigVal :=
  ConfigVal.dict (ConfigEntries.cons "lst"
    (ConfigVal.list (ConfigItems.cons (ConfigVal.str "env:NAME")
      (ConfigItems.cons
        (ConfigVal.dict (ConfigEntries.cons "k" (ConfigVal.str "env:NAME")
          ConfigEntries.nil))
        ConfigItems.nil)))
    ConfigEntries.nil)

/-- Claim C10: the dereferencing pass recurses only into nested dicts — a list
value is kept verbatim, so `env:NAME` strings inside the list (even inside
dicts nested within the list) are never replaced; concretely, a document whose
only entry is such a list is returned unchanged even though every environment
variable is set. -/
theorem parse_env_ignores_lists :
    (∀ (env : String → Option String) (xs : ConfigItems),
      parseEntryValue env (ConfigVal.list xs) = ConfigVal.list xs) ∧
    (∀ (env : String → Option String) (xs : ConfigItems),
      _parse_environment_variables env (ConfigVal.list xs) = ConfigVal.list xs) ∧
    (∀ (env : String → Option String) (key : String) (xs : ConfigItems)
        (rest : ConfigEntries),
      parseEntries env (ConfigEntries.cons key (ConfigVal.list xs) rest) =
        ConfigEntries.cons key (ConfigVal.list xs) (parseEntries env rest)) ∧
    _parse_environment_variables c10env c10doc = c10doc := by
  refine ⟨fun env xs => by simp [parseEntryValue],
    fun env xs => by simp [_parse_environment_variables],
    fun env key xs rest => by simp [parseEntries, parseEntryValue],
    by decide⟩

/-- Claim C8: for every combination of step outcomes in the categorization
flow of the Memory insert/update trigger, no exception escapes the trigger
handler (so it can never propagate to, or roll back, the triggering memory
write, which lives in a different session), the trigger's own session is
always closed, and whenever the flow failed the trigger's session was rolled
back and the error logged. -/
theorem categorization_trigger_isolation :
    ∀ s : InsertTriggerSteps,
      (after_memory_insert_model s).raised = none ∧
      (after_memory_insert_model s).closed = true ∧
      (triggerFlowFailed s = true →
        (after_memory_insert_model s).rolled_back = true ∧
        (after_memory_insert_model s).logged = true) := by
  intro s
  simp only [after_memory_insert_model, triggerFlowFailed]
  cases hl : s.lookup with
  | error e => cases s.outer_rollback <;> cases s.close <;> simp
  | ok o =>
      cases o with
      | none => cases s.close <;> simp
      | some u2 =>
          cases u2
          simp only [categorize_memory_model]
          cases hflow : (do
              let _ ← s.cat.get_categories
              let _ ← s.cat.link_categories
              s.cat.commit : Except PyErr Unit) with
          | ok _ => cases s.close <;> simp
          | error e =>
              cases s.cat.rollback <;> cases s.outer_rollback <;>
                cases s.close <;> simp

def c8steps : InsertTriggerSteps :=
  { lookup := Except.ok (some ())
    cat := { get_categories := Except.error (PyErr.otherError "LLM down after retries")
             link_categories := Except.ok ()
             commit := Except.ok ()
             rollback := Except.ok () }
    outer_rollback := Except.ok ()
    close := Except.ok () }

/-- Witness for C8 at a concrete failing categorization run. -/
theorem categorization_trigger_isolation_witness :
    (after_memory_insert_model c8steps).raised = none ∧
    (after_memory_insert_model c8steps).rolled_back = true ∧
    (after_memory_insert_model c8steps).logged = true :=
  ⟨(categorization_trigger_isolation c8steps).1,
    ((categorization_trigger_isolation c8steps).2.2 (by decide)).1,
    ((categorization_trigger_isolation c8steps).2.2 (by decide)).2⟩

theorem isPyWs_ofNat_upper (m : Nat) (h1 : 65 ≤ m) (h2 : m ≤ 90) :
    isPyWs (Char.ofNat m) = false := by
  interval_cases m <;> decide

theorem isPyWs_toUpper (c : Char) : isPyWs (Char.toUpper c) = isPyWs c := by
  unfold Char.toUpper
  dsimp only
  split
  · rename_i h
    obtain ⟨h1, h2⟩ := h
    have hws : isPyWs c = false := by
      simp only [isPyWs, decide_eq_false_iff_not]
      rintro (rfl | rfl | rfl | rfl | rfl | rfl) <;> exact absurd h1 (by decide)
    rw [hws]
    exact isPyWs_ofNat_upper _ (by omega) (by omega)
  · rfl

theorem splitWsAux_no_ws :
    ∀ (s acc : List Char), (∀ c ∈ acc, isPyWs c = false) →
      ∀ w ∈ splitWsAux s acc, ∀ c ∈ w, isPyWs c = false := by
  intro s
  induction s with
  | nil =>
      intro acc hacc w hw c hc
      simp only [splitWsAux] at hw
      by_cases he : acc.isEmpty
      · simp [he] at hw
      · simp [he] at hw
        subst hw
        exact hacc c (List.mem_reverse.mp hc)
  | cons a s ih =>
      intro acc hacc w hw c hc
      simp only [splitWsAux] at hw
      by_cases ha : isPyWs a
      · simp only [ha, if_true] at hw
        by_cases he : acc.isEmpty
        · simp only [he, if_true] at hw
          exact ih [] (by simp) w hw c hc
        · simp only [he, if_false] at hw
          rcases List.mem_cons.mp hw with h1 | h1
          · subst h1
            exact hacc c (List.mem_reverse.mp hc)
          · exact ih [] (by simp) w h1 c hc
      · simp only [ha, if_false] at hw
        refine ih (a :: acc) ?_ w hw c hc
        intro d hd
        rcases List.mem_cons.mp hd with h1 | h1
        · subst h1
          exact Bool.of_not_eq_true ha
        · exact hacc d h1

theorem joinSpace_mem :
    ∀ (ws : List (List Char)) (c : Char), c ∈ joinSpace ws →
      c = ' ' ∨ ∃ w ∈ ws, c ∈ w := by
  intro ws
  induction ws with
  | nil => intro c hc; simp [joinSpace] at hc
  | cons w ws ih =>
      intro c hc
      cases ws with
      | nil =>
          right
          exact ⟨w, by simp, by simpa [joinSpace] using hc⟩
      | cons w2 ws2 =>
          simp only [joinSpace] at hc
          rcases List.mem_append.mp hc with h1 | h1
          · exact Or.inr ⟨w, by simp, h1⟩
          · rcases List.mem_cons.mp h1 with h2 | h2
            · exact Or.inl h2
            · rcases ih c h2 with h3 | ⟨w3, hw3, hc3⟩
              · exact Or.inl h3
              · exact Or.inr ⟨w3, List.mem_cons_of_mem _ hw3, hc3⟩

/-- After whitespace collapsing, the only whitespace character left is a
single space. -/
theorem collapseWs_ws_eq_space (s : List Char) (c : Char)
    (hc : c ∈ collapseWs s) (hws : isPyWs c = true) : c = ' ' := by
  rcases joinSpace_mem (pySplit s) c hc with h | ⟨w, hw, hcw⟩
  · exact h
  · exact absurd hws (by simp [splitWsAux_no_ws s [] (by simp) w hw c hcw])

/-- Every write keyword is a nonempty string. -/
theorem write_keywords_ne_nil : ∀ kw ∈ WRITE_KEYWORDS, kw.toList ≠ [] := by
  intro kw hkw
  simp only [WRITE_KEYWORDS, List.mem_cons, List.not_mem_nil, or_false] at hkw
  rcases hkw with rfl | rfl | rfl | rfl | rfl | rfl <;> decide

theorem isPyWs_of_nextCharOk (c : Char) (rest : List Char)
    (h : nextCharOk (c :: rest) = true) : isPyWs c = true := by
  have h2 : c = ' ' ∨ c = '\n' ∨ c = '\t' ∨ c = '\r' := by
    simpa [nextCharOk, or_assoc] using h
  rcases h2 with rfl | rfl | rfl | rfl <;> decide

/-- Claim C7: with dual-write enabled, `should_dual_write` classifies a query
as a write if and only if, after collapsing whitespace, its upper-cased text
starts with one of the write keywords followed by whitespace or end-of-string;
in particular a query beginning with a read clause (MATCH) is a read even when
it contains a later SET clause, a word merely prefixed by a keyword (SETTING)
is not a write, and with dual-write disabled nothing is a write. -/
theorem should_dual_write_iff :
    (∀ query : String, should_dual_write true query = true ↔ IsWriteStart query) ∧
    should_dual_write true "MATCH (n) WHERE n.x = 1 SET n.value = 2" = false ∧
    should_dual_write true "SETTING x TO 1" = false ∧
    should_dual_write true "  set n.value = 1" = true ∧
    should_dual_write true "DETACH DELETE n" = true ∧
    should_dual_write false "CREATE (n)" = false := by
  refine ⟨?_, by decide, by decide, by decide, by decide, by decide⟩
  intro query
  have hred : should_dual_write true query =
      (if (collapseWs query.toList).isEmpty then false
       else WRITE_KEYWORDS.any (fun kw =>
         startsWithKeyword ((collapseWs query.toList).map Char.toUpper) kw.toList)) := rfl
  rw [hred]
  constructor
  · intro h
    by_cases he : (collapseWs query.toList).isEmpty
    · rw [if_pos he] at h
      exact absurd h (by simp)
    · rw [if_neg he] at h
      obtain ⟨kw, hkw, hsw⟩ := List.any_eq_true.mp h
      simp only [startsWithKeyword, Bool.and_eq_true] at hsw
      obtain ⟨hpre, hnext⟩ := hsw
      obtain ⟨t, ht⟩ := List.isPrefixOf_iff_prefix.mp hpre
      refine ⟨kw, hkw, ?_⟩
      have hdrop : ((collapseWs query.toList).map Char.toUpper).drop kw.toList.length = t := by
        rw [← ht, List.drop_left]
      cases t with
      | nil => exact Or.inl (by rw [← ht, List.append_nil])
      | cons c rest =>
          refine Or.inr ⟨c, rest, ht.symm, ?_⟩
          rw [hdrop] at hnext
          exact isPyWs_of_nextCharOk c rest hnext
  · rintro ⟨kw, hkw, hcase⟩
    have hne : kw.toList ≠ [] := write_keywords_ne_nil kw hkw
    have hqu : ∃ t, (collapseWs query.toList).map Char.toUpper = kw.toList ++ t ∧
        nextCharOk t = true := by
      rcases hcase with h1 | ⟨c, rest, h1, hws⟩
      · exact ⟨[], by rw [h1, List.append_nil], rfl⟩
      · refine ⟨c :: rest, h1, ?_⟩
        have hcmem : c ∈ (collapseWs query.toList).map Char.toUpper := by
          rw [h1]
          exact List.mem_append_right _ (List.mem_cons_self c rest)
        obtain ⟨c0, hc0, hcc0⟩ := List.mem_map.mp hcmem
        have hws0 : isPyWs c0 = true := by
          rw [← isPyWs_toUpper c0, hcc0]
          exact hws
        have hsp : c0 = ' ' := collapseWs_ws_eq_space _ c0 hc0 hws0
        rw [hsp] at hcc0
        have hsp2 : c = ' ' := by rw [← hcc0]; decide
        rw [hsp2]
        rfl
    obtain ⟨t, ht, htok⟩ := hqu
    have hnonempty : ¬ (collapseWs query.toList).isEmpty = true := by
      intro hemp
      rw [List.isEmpty_iff] at hemp
      rw [hemp] at ht
      simp only [List.map_nil] at ht
      exact hne (List.append_eq_nil.mp ht.symm).1
    rw [if_neg hnonempty]
    refine List.any_eq_true.mpr ⟨kw, hkw, ?_⟩
    simp only [startsWithKeyword, Bool.and_eq_true]
    refine ⟨List.isPrefixOf_iff_prefix.mpr ⟨t, ht.symm⟩, ?_⟩
    rw [ht, List.drop_left]
    exact htok

def c5decode : String → Option Json := fun s =>
  if s == "5" then some (Json.num 5) else none

def c5llm : Unit → Except PyErr LlmResponse := fun _ =>
  Except.ok ⟨[⟨some ⟨some "5"⟩⟩]⟩

/-- Claim C5 (counterexample): a syntactically valid LLM response whose top
level is the JSON number `5` (so JSON decoding succeeds and no `categories`
key exists) makes the categorization flow raise a `TypeError` from the
membership test `"categories" not in response_json`, instead of returning an
empty list; so it is not true that only a JSON decode failure is re-raised as
an error. -/
theorem categorization_nonobject_raises_counterexample :
    c5decode "5" = some (Json.num 5) ∧
    _parse_categories_response c5decode (some "5") =
      Except.error (PyErr.typeError "argument is not iterable") ∧
    get_categories_for_memory c5decode c5llm "the answer is 5" =
      Except.error (PyErr.typeError "argument is not iterable") ∧
    (∀ msg, PyErr.typeError "argument is not iterable" ≠ PyErr.valueError msg) :=
  ⟨rfl, rfl, rfl, fun msg h => by cases h⟩

/-- The truthy-content reduction of `_parse_categories_response`. -/
theorem parse_resp_truthy (decode : String → Option Json) (content : String)
    (h : content ≠ "") :
    _parse_categories_response decode (some content) =
      (match decode content with
       | none => Except.error (PyErr.valueError "Invalid JSON response from LLM")
       | some response_json => do
           let hasKey ← pyContains response_json "categories"
           if !hasKey then pure []
           else do
             let categories ← pyIndex response_json "categories"
             match categories with
             | Json.arr xs => pure (normalizeCategories xs)
             | _ => pure []) := by
  have ht : pyTruthyStr (some content) = true := by
    simp [pyTruthyStr, h]
  simp [_parse_categories_response, ht]

/-- Claim C5 (amended): empty or whitespace-only input short-circuits to an
empty list without invoking the LLM; empty response content yields an empty
list; a JSON decode failure of the top-level response content is re-raised as
an error; for a top-level JSON object the `categories` handling returns the
normalized entries of a list value (trimmed, lower-cased, empty and non-string
entries dropped) and an empty list (not an error) when the key is missing or
its value is not a list; but a non-object top level (e.g. a bare number) can
raise a type error instead. -/
theorem categorization_parse_characterization :
    (∀ (decode : String → Option Json) (callLlm : Unit → Except PyErr LlmResponse)
        (memory : String), pyStrip memory = "" →
      get_categories_for_memory decode callLlm memory = Except.ok []) ∧
    (∀ decode : String → Option Json,
      _parse_categories_response decode none = Except.ok [] ∧
      _parse_categories_response decode (some "") = Except.ok []) ∧
    (∀ (decode : String → Option Json) (content : String), content ≠ "" →
      decode content = none →
      _parse_categories_response decode (some content) =
        Except.error (PyErr.valueError "Invalid JSON response from LLM")) ∧
    (∀ (decode : String → Option Json) (content : String)
        (kvs : List (String × Json)), content ≠ "" →
      decode content = some (Json.obj kvs) →
      ((∀ kv ∈ kvs, kv.1 ≠ "categories") →
        _parse_categories_response decode (some content) = Except.ok []) ∧
      (∀ entry, kvs.find? (fun kv => kv.1 == "categories") = some entry →
        (∀ xs, entry.2 = Json.arr xs →
          _parse_categories_response decode (some content) =
            Except.ok (normalizeCategories xs)) ∧
        ((∀ xs, entry.2 ≠ Json.arr xs) →
          _parse_categories_response decode (some content) = Except.ok []))) ∧
    (∀ (decode : String → Option Json) (content : String) (n : Int), content ≠ "" →
      decode content = some (Json.num n) →
      _parse_categories_response decode (some content) =
        Except.error (PyErr.typeError "argument is not iterable")) ∧
    normalizeCategories
        [Json.str "  Food ", Json.num 3, Json.str "   ", Json.str "TRAVEL"] =
      ["food", "travel"] := by
  refine ⟨?_, ?_, ?_, ?_, ?_, by decide⟩
  · intro decode callLlm memory h
    simp [get_categories_for_memory, h]
  · intro decode
    exact ⟨rfl, rfl⟩
  · intro decode content hc hd
    rw [parse_resp_truthy decode content hc, hd]
  · intro decode content kvs hc hd
    constructor
    · intro hmiss
      have hany : (kvs.any (fun kv => kv.1 == "categories")) = false := by
        simp only [List.any_eq_false]
        intro kv hkv
        simpa using hmiss kv hkv
      have h1 : pyContains (Json.obj kvs) "categories" = Except.ok false := by
        simp [pyContains, hany]
      rw [parse_resp_truthy decode content hc, hd]
      dsimp only
      rw [h1]
      rfl
    · intro entry hfind
      have hany : (kvs.any (fun kv => kv.1 == "categories")) = true :=
        List.any_eq_true.mpr ⟨entry, List.mem_of_find?_eq_some hfind,
          by simpa using List.find?_some hfind⟩
      have h1 : pyContains (Json.obj kvs) "categories" = Except.ok true := by
        simp [pyContains, hany]
      have h2 : pyIndex (Json.obj kvs) "categories" = Except.ok entry.2 := by
        simp [pyIndex, hfind]
      constructor
      · intro xs hxs
        rw [parse_resp_truthy decode content hc, hd]
        dsimp only
        rw [h1, h2, hxs]
        rfl
      · intro hnot
        rw [parse_resp_truthy decode content hc, hd]
        dsimp only
        rw [h1, h2]
        cases he : entry.2 with
        | arr xs => exact absurd he (hnot xs)
        | null => rfl
        | bool b => rfl
        | num n => rfl
        | str s => rfl
        | obj kvs2 => rfl
  · intro decode content n hc hd
    rw [parse_resp_truthy decode content hc, hd]
    rfl

/-- Witness for the amended C5 theorem: the decode-failure clause applied at a
concrete undecodable content. -/
theorem categorization_parse_characterization_witness :
    _parse_categories_response c5decode (some "bad json") =
      Except.error (PyErr.valueError "Invalid JSON response from LLM") :=
  categorization_parse_characterization.2.2.1 c5decode "bad json"
    (by decide) rfl

theorem specificIds_cons_pos (eff : String) (r : AccessRule) (rest : List AccessRule)
    (h : (r.effect == eff && objTruthy r.object_id) = true) :
    specificIds eff (r :: rest) =
      insert (r.object_id.getD "") (specificIds eff rest) := by
  simp [specificIds, List.filter_cons, h]

theorem specificIds_cons_neg (eff : String) (r : AccessRule) (rest : List AccessRule)
    (h : (r.effect == eff && objTruthy r.object_id) = false) :
    specificIds eff (r :: rest) = specificIds eff rest := by
  simp [specificIds, List.filter_cons, h]

/-- The rule loop computes accumulated-allowed minus accumulated-denied when
no broad (NULL object id) rule occurs. -/
theorem getAccessibleGo_noBroad :
    ∀ (rules : List AccessRule) (A D : Finset String), NoBroadRule rules →
      getAccessibleGo A D rules =
        some ((A ∪ specificIds "allow" rules) \ (D ∪ specificIds "deny" rules)) := by
  intro rules
  induction rules with
  | nil =>
      intro A D _
      simp only [getAccessibleGo, specificIds, List.filter_nil, List.map_nil,
        List.toFinset_nil, Finset.union_empty]
      by_cases hA : A.Nonempty
      · rw [if_pos hA]
      · rw [if_neg hA]
        rw [Finset.not_nonempty_iff_eq_empty] at hA
        subst hA
        simp
  | cons r rest ih =>
      intro A D hnb
      have hnbrest : NoBroadRule rest := fun q hq => hnb q (List.mem_cons_of_mem r hq)
      by_cases ha : r.effect = "allow"
      · have htr : objTruthy r.object_id = true := hnb r (List.mem_cons_self r rest) (Or.inl ha)
        have hbeq : (r.effect == "allow") = true := beq_iff_eq.mpr ha
        rw [show getAccessibleGo A D (r :: rest) =
            getAccessibleGo (insert (r.object_id.getD "") A) D rest by
          simp [getAccessibleGo, hbeq, htr]]
        rw [ih _ _ hnbrest]
        rw [specificIds_cons_pos "allow" r rest (by simp [hbeq, htr]),
          specificIds_cons_neg "deny" r rest (by simp [ha, beq_iff_eq])]
        rw [Finset.insert_union, Finset.union_insert]
      · by_cases hd : r.effect = "deny"
        · have htr : objTruthy r.object_id = true :=
            hnb r (List.mem_cons_self r rest) (Or.inr hd)
          have hbeq : (r.effect == "deny") = true := beq_iff_eq.mpr hd
          have hbeq2 : (r.effect == "allow") = false := by
            simp [beq_iff_eq, hd, ha]
          rw [show getAccessibleGo A D (r :: rest) =
              getAccessibleGo A (insert (r.object_id.getD "") D) rest by
            simp [getAccessibleGo, hbeq, hbeq2, htr]]
          rw [ih _ _ hnbrest]
          rw [specificIds_cons_neg "allow" r rest (by simp [hbeq2]),
            specificIds_cons_pos "deny" r rest (by simp [hbeq, htr])]
          rw [Finset.insert_union, Finset.union_insert]
        · have hbeq : (r.effect == "allow") = false := by simp [beq_iff_eq, ha]
          have hbeq2 : (r.effect == "deny") = false := by simp [beq_iff_eq, hd]
          rw [show getAccessibleGo A D (r :: rest) = getAccessibleGo A D rest by
            simp [getAccessibleGo, hbeq, hbeq2]]
          rw [ih _ _ hnbrest]
          rw [specificIds_cons_neg "allow" r rest (by simp [hbeq]),
            specificIds_cons_neg "deny" r rest (by simp [hbeq2])]

/-- Claim C2: `get_accessible_memory_ids` returns the unrestricted sentinel
(`none`) when no rules exist; `none` as soon as an allow rule with NULL object
id is reached (regardless of any later rules); the empty set when a deny rule
with NULL object id applies; and otherwise the specifically-allowed ids minus
the specifically-denied ids, so an object with both an allow-specific and a
deny-specific rule is excluded. -/
theorem get_accessible_memory_ids_characterization :
    get_accessible_memory_ids [] = none ∧
    (∀ (A D : Finset String) (rest : List AccessRule),
      getAccessibleGo A D (AccessRule.mk "allow" none :: rest) = none) ∧
    (∀ (A D : Finset String) (rest : List AccessRule),
      getAccessibleGo A D (AccessRule.mk "deny" none :: rest) = some ∅) ∧
    (∀ rules : List AccessRule, rules ≠ [] → NoBroadRule rules →
      get_accessible_memory_ids rules =
        some (specificIds "allow" rules \ specificIds "deny" rules)) ∧
    (∀ (rules : List AccessRule) (x : String), rules ≠ [] → NoBroadRule rules →
      AccessRule.mk "deny" (some x) ∈ rules → x ≠ "" →
      ∀ S, get_accessible_memory_ids rules = some S → x ∉ S) := by
  have hmain : ∀ rules : List AccessRule, rules ≠ [] → NoBroadRule rules →
      get_accessible_memory_ids rules =
        some (specificIds "allow" rules \ specificIds "deny" rules) := by
    intro rules hne hnb
    have hemp : rules.isEmpty = false := by
      cases rules with
      | nil => exact absurd rfl hne
      | cons a l => rfl
    rw [show get_accessible_memory_ids rules = getAccessibleGo ∅ ∅ rules by
      simp [get_accessible_memory_ids, hemp]]
    rw [getAccessibleGo_noBroad rules ∅ ∅ hnb]
    simp
  refine ⟨rfl, fun A D rest => rfl, fun A D rest => rfl, hmain, ?_⟩
  intro rules x hne hnb hmem hxne S hS
  rw [hmain rules hne hnb] at hS
  have hxden : x ∈ specificIds "deny" rules := by
    simp only [specificIds, List.mem_toFinset, List.mem_map]
    refine ⟨AccessRule.mk "deny" (some x), ?_, rfl⟩
    rw [List.mem_filter]
    refine ⟨hmem, ?_⟩
    simp [objTruthy, hxne]
  have := Option.some.inj hS
  subst this
  intro hx
  exact absurd hxden (Finset.mem_sdiff.mp hx).2

def c2rules : List AccessRule :=
  [AccessRule.mk "allow" (some "m1"), AccessRule.mk "deny" (some "m1"),
   AccessRule.mk "allow" (some "m2")]

theorem c2rules_noBroad : NoBroadRule c2rules := by
  intro r hr h
  fin_cases hr <;> decide

/-- Witness for C2 at a concrete rule list with one allow-specific and one
deny-specific rule on the same object id. -/
theorem get_accessible_memory_ids_characterization_witness :
    get_accessible_memory_ids c2rules =
      some (specificIds "allow" c2rules \ specificIds "deny" c2rules) ∧
    "m1" ∉ (specificIds "allow" c2rules \ specificIds "deny" c2rules) :=
  ⟨get_accessible_memory_ids_characterization.2.2.2.1 c2rules (by decide)
      c2rules_noBroad,
    fun hx =>
      get_accessible_memory_ids_characterization.2.2.2.2 c2rules "m1" (by decide)
        c2rules_noBroad (by decide) (by decide) _
        (get_accessible_memory_ids_characterization.2.2.2.1 c2rules (by decide)
          c2rules_noBroad) hx⟩

/-- An engine event that reconciles to "skipped": a NONE event, an
unrecognized event type, or a DELETE whose id has no row. -/
def skippable (db : Db) (r : EventResult) : Prop :=
  r.event = "NONE" ∨
  (r.event ≠ "ADD" ∧ r.event ≠ "UPDATE" ∧ r.event ≠ "DELETE" ∧ r.event ≠ "NONE") ∨
  (r.event = "DELETE" ∧ findMem db r.id = none)

instance (db : Db) (r : EventResult) : Decidable (skippable db r) := by
  unfold skippable
  exact inferInstance

theorem processEvent_skip (user : UserRow) (app_obj : AppRow)
    (md : List (String × String)) (now : Nat) (db : Db) (s : LoopState)
    (hdb : s.db = db) (r : EventResult) (hr : skippable db r) :
    processEvent user app_obj md now s r =
      { s with skipped := s.skipped ++ [r.id] } := by
  rcases hr with h | ⟨ha, hu, hd2, hn⟩ | ⟨h, hnone⟩
  · have : r.event == "NONE" := beq_iff_eq.mpr h
    have ha : (r.event == "ADD") = false := by simp [beq_iff_eq, h]
    have hu : (r.event == "UPDATE") = false := by simp [beq_iff_eq, h]
    have hd2 : (r.event == "DELETE") = false := by simp [beq_iff_eq, h]
    simp [processEvent, ha, hu, hd2, this, _handle_none_event, routeAction]
  · have ha2 : (r.event == "ADD") = false := by simp [beq_iff_eq, ha]
    have hu2 : (r.event == "UPDATE") = false := by simp [beq_iff_eq, hu]
    have hd3 : (r.event == "DELETE") = false := by simp [beq_iff_eq, hd2]
    have hn2 : (r.event == "NONE") = false := by simp [beq_iff_eq, hn]
    simp [processEvent, ha2, hu2, hd3, hn2]
  · have ha : (r.event == "ADD") = false := by simp [beq_iff_eq, h]
    have hu : (r.event == "UPDATE") = false := by simp [beq_iff_eq, h]
    have hd2 : (r.event == "DELETE") = true := beq_iff_eq.mpr h
    have hfind : findMem s.db r.id = none := by rw [hdb]; exact hnone
    simp [processEvent, ha, hu, hd2, hfind, _handle_delete_event, routeAction]

theorem foldl_skip (user : UserRow) (app_obj : AppRow)
    (md : List (String × String)) (now : Nat) (db : Db) :
    ∀ (results : List EventResult) (s : LoopState), s.db = db →
      (∀ r ∈ results, skippable db r) →
      results.foldl (processEvent user app_obj md now) s =
        { s with skipped := s.skipped ++ results.map (fun r => r.id) } := by
  intro results
  induction results with
  | nil => intro s _ _; simp
  | cons r rs ih =>
      intro s hdb hall
      rw [List.foldl_cons]
      rw [processEvent_skip user app_obj md now db s hdb r
        (hall r (List.mem_cons_self r rs))]
      rw [ih { s with skipped := s.skipped ++ [r.id] } hdb
        (fun q hq => hall q (List.mem_cons_of_mem r hq))]
      simp

/-- Claim C9: when every event of a well-shaped engine response reconciles to
skipped (NONE, unrecognized type, or DELETE of a nonexistent id), the
results-processing branch of POST /memories/ commits no database change and
returns the null body (HTTP 200 with `null`, neither a memory object nor an
error payload). -/
theorem create_memory_all_skipped_null :
    ∀ (user : UserRow) (app_obj : AppRow) (md : List (String × String)) (now : Nat)
      (results : List EventResult) (db : Db),
    (∀ r ∈ results, skippable db r) →
    create_memory_results user app_obj md now results db =
      (CreateResponse.nullBody, db) := by
  intro user app_obj md now results db h
  unfold create_memory_results
  rw [foldl_skip user app_obj md now db results ⟨db, [], [], [], []⟩ rfl h]
  simp

def c9db : Db := ⟨[⟨1, "alice"⟩], [⟨1, 1, 2, "kept fact", [], MemoryState.active,
  none, none, []⟩], []⟩

def c9results : List EventResult :=
  [⟨"NONE", 9, "irrelevant"⟩, ⟨"BOGUS", 8, "irrelevant"⟩, ⟨"DELETE", 7, "gone"⟩]

/-- Witness for C9: a NONE event, an unknown event type and a DELETE of a
nonexistent id leave the database untouched and return the null body. -/
theorem create_memory_all_skipped_null_witness :
    create_memory_results ⟨1, "alice"⟩ ⟨2⟩ [] 0 c9results c9db =
      (CreateResponse.nullBody, c9db) :=
  create_memory_all_skipped_null ⟨1, "alice"⟩ ⟨2⟩ [] 0 c9results c9db (by decide)

/-! ### Pause endpoint lemmas -/

/-- The `memories` table has unique primary keys. -/
def memIdsNodup (db : Db) : Prop :=
  (db.memories.map (fun m => m.id)).Nodup

theorem mutState_id (m : MemRow) (st : MemoryState) (now : Nat) :
    (mutState m st now).id = m.id := rfl

theorem find?_mut_ne (l : List MemRow) (i j : Nat) (st : MemoryState) (now : Nat)
    (hne : j ≠ i) :
    (l.map (fun r => if r.id == i then mutState r st now else r)).find?
        (fun m => m.id == j) =
      l.find? (fun m => m.id == j) := by
  rw [List.find?_map]
  have hfun : ((fun m : MemRow => m.id == j) ∘
      (fun r => if r.id == i then mutState r st now else r)) =
      (fun r : MemRow => r.id == j) := by
    funext r
    by_cases h : r.id == i
    · simp [Function.comp, h, mutState_id]
    · simp [Function.comp, h]
  rw [hfun]
  cases hf : l.find? (fun m => m.id == j) with
  | none => rfl
  | some r =>
      have hrj : r.id = j := by
        have := List.find?_some hf
        simpa using this
      have hri : (r.id == i) = false := by
        simp only [beq_eq_false_iff_ne]
        rw [hrj]
        exact hne
      rw [Option.map_some']
      rw [if_neg (by simp [hri])]

theorem find?_self_of_nodup :
    ∀ (l : List MemRow), (l.map (fun m => m.id)).Nodup →
      ∀ m ∈ l, l.find? (fun r => r.id == m.id) = some m := by
  intro l
  induction l with
  | nil => intro _ m hm; cases hm
  | cons a l ih =>
      intro hnd m hm
      rw [List.map_cons, List.nodup_cons] at hnd
      obtain ⟨hna, hnd2⟩ := hnd
      rcases List.mem_cons.mp hm with rfl | hm2
      · rw [List.find?_cons_of_pos _ (by simp)]
      · have hne : (a.id == m.id) = false := by
          simp only [beq_eq_false_iff_ne]
          intro he
          exact hna (he ▸ List.mem_map_of_mem (fun m => m.id) hm2)
        rw [List.find?_cons_of_neg _ (by simp [hne])]
        exact ih hnd2 m hm2

theorem pauseLoop_eq (st : MemoryState) (uid now : Nat) :
    ∀ (ids : List Nat) (db : Db), memIdsNodup db → ids.Nodup →
      (∀ i ∈ ids, ∃ m ∈ db.memories, m.id = i) →
      pauseLoop db ids st uid now = Except.ok (pausedByIds db ids st uid now) := by
  intro ids
  induction ids with
  | nil =>
      intro db _ _ _
      simp only [pauseLoop, List.foldlM_nil, pausedByIds, List.filterMap_nil,
        List.append_nil, List.contains_nil, Bool.false_eq_true, if_false,
        List.map_id_fun', id]
      rfl
  | cons i rest ih =>
      intro db hnd hids hpres
      obtain ⟨m0, hm0mem, hm0id⟩ := hpres i (List.mem_cons_self i rest)
      have hfind : findMem db i = some m0 := by
        rw [findMem, ← hm0id]
        exact find?_self_of_nodup db.memories hnd m0 hm0mem
      have hinotin : i ∉ rest := (List.nodup_cons.mp hids).1
      have hrestnd : rest.Nodup := (List.nodup_cons.mp hids).2
      have hstep : update_memory_state db i st uid now = Except.ok
          { db with
            memories := db.memories.map
              (fun r => if r.id == i then mutState r st now else r)
            history := db.history ++ [⟨i, uid, m0.state, st⟩] } := by
        rw [update_memory_state, hfind]
      have hone : pauseLoop db (i :: rest) st uid now =
          pauseLoop
            { db with
              memories := db.memories.map
                (fun r => if r.id == i then mutState r st now else r)
              history := db.history ++ [⟨i, uid, m0.state, st⟩] }
            rest st uid now := by
        rw [pauseLoop, List.foldlM_cons, hstep]
        rfl
      set db1 : Db :=
        { db with
          memories := db.memories.map
            (fun r => if r.id == i then mutState r st now else r)
          history := db.history ++ [⟨i, uid, m0.state, st⟩] } with hdb1
      have hids1 : db1.memories.map (fun m => m.id) =
          db.memories.map (fun m => m.id) := by
        rw [hdb1]
        simp only [List.map_map]
        apply List.map_congr_left
        intro a _
        by_cases h : a.id == i
        · simp [Function.comp, h, mutState_id]
        · simp [Function.comp, h]
      have hnd1 : memIdsNodup db1 := by
        rw [memIdsNodup, hids1]
        exact hnd
      have hpres1 : ∀ j ∈ rest, ∃ m ∈ db1.memories, m.id = j := by
        intro j hj
        obtain ⟨m, hm, hmid⟩ := hpres j (List.mem_cons_of_mem i hj)
        refine ⟨if m.id == i then mutState m st now else m,
          List.mem_map_of_mem _ hm, ?_⟩
        by_cases h : (m.id == i) = true
        · rw [if_pos h, mutState_id]
          exact hmid
        · rw [if_neg (by simp [h])]
          exact hmid
      rw [hone, ih db1 hnd1 hrestnd hpres1]
      congr 1
      rw [pausedByIds, pausedByIds]
      have hmemeq : db1.memories.map
          (fun m => if rest.contains m.id then mutState m st now else m) =
          db.memories.map
            (fun m => if (i :: rest).contains m.id then mutState m st now else m) := by
        rw [hdb1]
        simp only [List.map_map]
        apply List.map_congr_left
        intro a _
        by_cases h : a.id = i
        · have hb : (a.id == i) = true := beq_iff_eq.mpr h
          have h1 : i ∉ rest := hinotin
          simp [Function.comp, hb, mutState_id, h, h1]
        · have hb : (a.id == i) = false := by simp [beq_eq_false_iff_ne, h]
          by_cases h2 : a.id ∈ rest
          · simp [Function.comp, hb, mutState_id, h, h2]
          · simp [Function.comp, hb, mutState_id, h, h2]
      have hhisteq : db1.history ++ rest.filterMap
          (fun j => (findMem db1 j).map (fun m => (⟨j, uid, m.state, st⟩ : HistRow))) =
          db.history ++ (i :: rest).filterMap
            (fun j => (findMem db j).map (fun m => (⟨j, uid, m.state, st⟩ : HistRow))) := by
        have hfm : ∀ j ∈ rest, findMem db1 j = findMem db j := by
          intro j hj
          have hne : j ≠ i := fun he => hinotin (he ▸ hj)
          rw [hdb1, findMem, findMem]
          exact find?_mut_ne db.memories i j st now hne
        rw [List.filterMap_congr (fun j hj => by rw [hfm j hj])]
        rw [List.filterMap_cons]
        rw [hfind]
        rw [Option.map_some']
        rw [show db1.history = db.history ++ [⟨i, uid, m0.state, st⟩] from by rw [hdb1]]
        simp [List.append_assoc]
      rw [hmemeq, hhisteq]

theorem filterMap_eq_map_of_some {α β : Type} (g : α → β) :
    ∀ (l : List α) (f : α → Option β), (∀ x ∈ l, f x = some (g x)) →
      l.filterMap f = l.map g := by
  intro l
  induction l with
  | nil => intro f _; rfl
  | cons a l ih =>
      intro f h
      rw [List.filterMap_cons, h a (List.mem_cons_self a l), List.map_cons,
        ih f (fun x hx => h x (List.mem_cons_of_mem a hx))]

theorem filter_ids_nodup (db : Db) (sel : MemRow → Bool) (hnd : memIdsNodup db) :
    ((db.memories.filter sel).map (fun m => m.id)).Nodup :=
  List.Nodup.sublist (List.Sublist.map _ (List.filter_sublist db.memories)) hnd

theorem filter_ids_present (db : Db) (sel : MemRow → Bool) :
    ∀ i ∈ (db.memories.filter sel).map (fun m => m.id),
      ∃ m ∈ db.memories, m.id = i := by
  intro i hi
  obtain ⟨m, hm, hmi⟩ := List.mem_map.mp hi
  exact ⟨m, (List.mem_filter.mp hm).1, hmi⟩

theorem contains_filter_ids (db : Db) (sel : MemRow → Bool) (hnd : memIdsNodup db) :
    ∀ a ∈ db.memories,
      ((db.memories.filter sel).map (fun m => m.id)).contains a.id = sel a := by
  intro a ha
  by_cases hs : sel a = true
  · rw [hs]
    exact List.elem_iff.mpr (List.mem_map_of_mem _ (List.mem_filter.mpr ⟨ha, hs⟩))
  · rw [Bool.eq_false_iff.mpr hs]
    refine Bool.eq_false_iff.mpr (fun hc => ?_)
    obtain ⟨m2, hm2, hm2i⟩ := List.mem_map.mp (List.elem_iff.mp hc)
    obtain ⟨hm2mem, hm2sel⟩ := List.mem_filter.mp hm2
    have : m2 = a := List.inj_on_of_nodup_map hnd hm2mem ha hm2i
    exact hs (this ▸ hm2sel)

theorem pausedByIds_filter (db : Db) (sel : MemRow → Bool) (st : MemoryState)
    (uid now : Nat) (hnd : memIdsNodup db) :
    pausedByIds db ((db.memories.filter sel).map (fun m => m.id)) st uid now =
      pauseRows db sel st uid now := by
  rw [pausedByIds, pauseRows]
  have hmem : db.memories.map (fun m =>
      if ((db.memories.filter sel).map (fun m => m.id)).contains m.id
      then mutState m st now else m) =
      db.memories.map (fun m => if sel m then mutState m st now else m) := by
    apply List.map_congr_left
    intro a ha
    rw [contains_filter_ids db sel hnd a ha]
  have hhist : ((db.memories.filter sel).map (fun m => m.id)).filterMap
      (fun i => (findMem db i).map (fun m => (⟨i, uid, m.state, st⟩ : HistRow))) =
      (db.memories.filter sel).map
        (fun m => (⟨m.id, uid, m.state, st⟩ : HistRow)) := by
    rw [List.filterMap_map]
    apply filterMap_eq_map_of_some
    intro m2 hm2
    have hself : findMem db m2.id = some m2 :=
      find?_self_of_nodup db.memories hnd m2 (List.mem_filter.mp hm2).1
    simp only [Function.comp]
    rw [hself, Option.map_some']
  rw [hmem, hhist]

/-- `pauseLoop` only ever fails with the 404 of `update_memory_state`. -/
theorem pauseLoop_error_404 (st : MemoryState) (uid now : Nat) :
    ∀ (ids : List Nat) (db : Db) (e : HErr),
      pauseLoop db ids st uid now = Except.error e →
      e = HErr.http 404 "Memory not found" := by
  intro ids
  induction ids with
  | nil =>
      intro db e h
      exact absurd h (by simp [pauseLoop, pure, Except.pure])
  | cons i rest ih =>
      intro db e h
      rw [pauseLoop, List.foldlM_cons] at h
      cases hu : update_memory_state db i st uid now with
      | ok db1 =>
          rw [hu] at h
          exact ih db1 e h
      | error e1 =>
          rw [hu] at h
          have he1 : e1 = HErr.http 404 "Memory not found" := by
            rw [update_memory_state] at hu
            cases hf : findMem db i with
            | none =>
                rw [hf] at hu
                exact (Except.error.inj hu).symm
            | some m =>
                rw [hf] at hu
                exact absurd hu (by simp)
          have : Except.error e1 = Except.error e := h
          rw [← Except.error.inj this, he1]

def c4req : PauseRequest :=
  { memory_ids := some [1, 2], category_ids := none, app_id := none,
    all_for_app := true, global_pause := false, state := none, user_id := "alice" }

def c4db : Db :=
  ⟨[⟨1, "alice"⟩],
   [⟨1, 1, 10, "memory of app ten", [], MemoryState.active, none, none, []⟩,
    ⟨2, 1, 20, "memory of app twenty", [], MemoryState.active, none, none, []⟩],
   []⟩

/-- Claim C4 (counterexample): in the third pause mode (`all_for_app` with an
explicit memory-id list), memories belonging to two different apps of the
requesting user are both transitioned, so the mode is not restricted to one
app. -/
theorem pause_mode3_two_apps_counterexample :
    (match pause_memories c4req c4db 0 with
     | Except.ok r =>
         ((findMem r.1 1).map (fun m => (m.state, m.app_id)),
          (findMem r.1 2).map (fun m => (m.state, m.app_id)))
     | Except.error _ => (none, none)) =
      (some (MemoryState.paused, 10), some (MemoryState.paused, 20)) ∧
    (10 : Nat) ≠ 20 :=
  ⟨by decide, by decide⟩

/-- Claim C4 (amended): POST /memories/actions/pause tries five modes in
order — global pause over all non-deleted, non-archived memories across all
users; by app id (restricted to the requesting user, non-deleted,
non-archived); by explicit memory-id list restricted to the requesting user
(not to one app) and not-deleted; by explicit memory-id list alone; by
category-id list — executes and returns the first mode whose condition holds,
writing one MemoryStatusHistory row per affected memory with the requested
state (default paused), and raises HTTP 400 ("Invalid pause request
parameters") if and only if no mode condition is met. -/
theorem pause_memories_characterization :
    ∀ (request : PauseRequest) (db : Db) (user : UserRow) (now : Nat),
    memIdsNodup db →
    db.users.find? (fun u => u.user_id == request.user_id) = some user →
    ((request.global_pause = true →
      pause_memories request db now = Except.ok
        (pauseRows db notDelArch (request.state.getD MemoryState.paused) user.id now,
         "Successfully paused all memories")) ∧
     (request.global_pause = false → ∀ aid, request.app_id = some aid →
      pause_memories request db now = Except.ok
        (pauseRows db
          (fun m => m.app_id == aid && m.user_id == user.id && notDelArch m)
          (request.state.getD MemoryState.paused) user.id now,
         "Successfully paused all memories for app")) ∧
     (request.global_pause = false → request.app_id = none →
      request.all_for_app = true → listTruthy request.memory_ids = true →
      pause_memories request db now = Except.ok
        (pauseRows db
          (fun m => m.user_id == user.id && !(m.state == MemoryState.deleted) &&
            (request.memory_ids.getD []).contains m.id)
          (request.state.getD MemoryState.paused) user.id now,
         "Successfully paused all memories")) ∧
     (request.global_pause = false → request.app_id = none →
      request.all_for_app = false → listTruthy request.memory_ids = true →
      (request.memory_ids.getD []).Nodup →
      (∀ i ∈ request.memory_ids.getD [], ∃ m ∈ db.memories, m.id = i) →
      pause_memories request db now = Except.ok
        (pausedByIds db (request.memory_ids.getD [])
          (request.state.getD MemoryState.paused) user.id now,
         "Successfully paused memories")) ∧
     (request.global_pause = false → request.app_id = none →
      listTruthy request.memory_ids = false →
      listTruthy request.category_ids = true →
      pause_memories request db now = Except.ok
        (pauseRows db
          (fun m => m.cat_ids.any (fun c => (request.category_ids.getD []).contains c) &&
            notDelArch m)
          (request.state.getD MemoryState.paused) user.id now,
         "Successfully paused memories in categories")) ∧
     (pause_memories request db now =
        Except.error (HErr.http 400 "Invalid pause request parameters") ↔
      (request.global_pause = false ∧ request.app_id = none ∧
       listTruthy request.memory_ids = false ∧
       listTruthy request.category_ids = false))) := by
  intro request db user now hnd hu
  have hmode1 : request.global_pause = true →
      pause_memories request db now = Except.ok
        (pauseRows db notDelArch (request.state.getD MemoryState.paused) user.id now,
         "Successfully paused all memories") := by
    intro hg
    simp only [pause_memories, hu, hg, if_true]
    rw [pauseLoop_eq _ _ _ _ db hnd (filter_ids_nodup db _ hnd)
      (filter_ids_present db _)]
    rw [pausedByIds_filter db _ _ _ _ hnd]
    rfl
  have hmode2 : request.global_pause = false → ∀ aid, request.app_id = some aid →
      pause_memories request db now = Except.ok
        (pauseRows db
          (fun m => m.app_id == aid && m.user_id == user.id && notDelArch m)
          (request.state.getD MemoryState.paused) user.id now,
         "Successfully paused all memories for app") := by
    intro hg aid ha
    simp only [pause_memories, hu, hg, Bool.false_eq_true, if_false, ha]
    rw [pauseLoop_eq _ _ _ _ db hnd (filter_ids_nodup db _ hnd)
      (filter_ids_present db _)]
    rw [pausedByIds_filter db _ _ _ _ hnd]
    rfl
  have hmode3 : request.global_pause = false → request.app_id = none →
      request.all_for_app = true → listTruthy request.memory_ids = true →
      pause_memories request db now = Except.ok
        (pauseRows db
          (fun m => m.user_id == user.id && !(m.state == MemoryState.deleted) &&
            (request.memory_ids.getD []).contains m.id)
          (request.state.getD MemoryState.paused) user.id now,
         "Successfully paused all memories") := by
    intro hg ha hall hmt
    simp only [pause_memories, hu, hg, Bool.false_eq_true, if_false, ha, hall,
      hmt, Bool.and_self, if_true]
    rw [pauseLoop_eq _ _ _ _ db hnd (filter_ids_nodup db _ hnd)
      (filter_ids_present db _)]
    rw [pausedByIds_filter db _ _ _ _ hnd]
    rfl
  have hmode4 : request.global_pause = false → request.app_id = none →
      request.all_for_app = false → listTruthy request.memory_ids = true →
      (request.memory_ids.getD []).Nodup →
      (∀ i ∈ request.memory_ids.getD [], ∃ m ∈ db.memories, m.id = i) →
      pause_memories request db now = Except.ok
        (pausedByIds db (request.memory_ids.getD [])
          (request.state.getD MemoryState.paused) user.id now,
         "Successfully paused memories") := by
    intro hg ha hall hmt hndids hpres
    simp only [pause_memories, hu, hg, Bool.false_eq_true, if_false, ha, hall,
      hmt, Bool.false_and, if_true]
    rw [pauseLoop_eq _ _ _ _ db hnd hndids hpres]
    rfl
  have hmode5 : request.global_pause = false → request.app_id = none →
      listTruthy request.memory_ids = false →
      listTruthy request.category_ids = true →
      pause_memories request db now = Except.ok
        (pauseRows db
          (fun m => m.cat_ids.any (fun c => (request.category_ids.getD []).contains c) &&
            notDelArch m)
          (request.state.getD MemoryState.paused) user.id now,
         "Successfully paused memories in categories") := by
    intro hg ha hmt hct
    simp only [pause_memories, hu, hg, Bool.false_eq_true, if_false, ha, hmt,
      Bool.and_false, hct, if_true]
    rw [pauseLoop_eq _ _ _ _ db hnd (filter_ids_nodup db _ hnd)
      (filter_ids_present db _)]
    rw [pausedByIds_filter db _ _ _ _ hnd]
    rfl
  refine ⟨hmode1, hmode2, hmode3, hmode4, hmode5, ?_⟩
  constructor
  · intro h400
    by_cases hg : request.global_pause = true
    · have := hmode1 hg
      rw [this] at h400
      exact absurd h400 (by simp)
    · have hg2 : request.global_pause = false := Bool.eq_false_iff.mpr hg
      cases ha : request.app_id with
      | some aid =>
          have := hmode2 hg2 aid ha
          rw [this] at h400
          exact absurd h400 (by simp)
      | none =>
          by_cases hmt : listTruthy request.memory_ids = true
          · exfalso
            simp only [pause_memories, hu, hg2, Bool.false_eq_true, if_false,
              ha, hmt] at h400
            by_cases hall : request.all_for_app = true
            · rw [hall] at h400
              simp only [Bool.true_and, if_true] at h400
              cases hp : pauseLoop db
                  ((db.memories.filter (fun m =>
                    m.user_id == user.id && !(m.state == MemoryState.deleted) &&
                    (request.memory_ids.getD []).contains m.id)).map (fun m => m.id))
                  (request.state.getD MemoryState.paused) user.id now with
              | ok d => rw [hp] at h400; exact absurd h400 (by simp [Except.map])
              | error e =>
                  rw [hp] at h400
                  have he : e = HErr.http 404 "Memory not found" :=
                    pauseLoop_error_404 _ _ _ _ db e hp
                  simp only [Except.map] at h400
                  rw [he] at h400
                  exact absurd (Except.error.inj h400) (by simp)
            · have hall2 : request.all_for_app = false := Bool.eq_false_iff.mpr hall
              rw [hall2] at h400
              simp only [Bool.false_and, Bool.false_eq_true, if_false, if_true] at h400
              cases hp : pauseLoop db (request.memory_ids.getD [])
                  (request.state.getD MemoryState.paused) user.id now with
              | ok d => rw [hp] at h400; exact absurd h400 (by simp [Except.map])
              | error e =>
                  rw [hp] at h400
                  have he : e = HErr.http 404 "Memory not found" :=
                    pauseLoop_error_404 _ _ _ _ db e hp
                  simp only [Except.map] at h400
                  rw [he] at h400
                  exact absurd (Except.error.inj h400) (by simp)
          · have hmt2 : listTruthy request.memory_ids = false :=
              Bool.eq_false_iff.mpr hmt
            by_cases hct : listTruthy request.category_ids = true
            · have := hmode5 hg2 ha hmt2 hct
              rw [this] at h400
              exact absurd h400 (by simp)
            · exact ⟨hg2, rfl, hmt2, Bool.eq_false_iff.mpr hct⟩
  · rintro ⟨hg, ha, hmt, hct⟩
    simp [pause_memories, hu, hg, ha, hmt, hct]

def c4wreq : PauseRequest :=
  { memory_ids := none, category_ids := none, app_id := none,
    all_for_app := false, global_pause := true, state := none, user_id := "alice" }

/-- Witness for the amended C4 theorem: a concrete global pause. -/
theorem pause_memories_characterization_witness :
    pause_memories c4wreq c4db 0 = Except.ok
      (pauseRows c4db notDelArch MemoryState.paused 1 0,
       "Successfully paused all memories") :=
  (pause_memories_characterization c4wreq c4db ⟨1, "alice"⟩ 0
    (by unfold memIdsNodup; decide) (by decide)).1 rfl

end Mem0
